import Mathlib

/-!
Verification development for the Google Analytics extraction utility
(`ga_universal.py`).  The Python module is shallowly embedded below:

* `Date` models Python `datetime.date` (fields with the validity invariants
  the `date` constructor enforces); `nextDay` models `+ timedelta(days=1)`,
  `dateLE` models `<=` on dates, `fmtISO` models `strftime("%Y-%m-%d")` and
  `fmtYYYYMMDD` models `strftime("%Y%m%d")`.
* `replaceGa` models Python `str.replace("ga:", "")`: scan left to right,
  remove each non-overlapping occurrence of the pattern.
* `parse_report` embeds `GoogleAnalyticsUtils.parse_report`; failures the
  Python code raises (IndexError on `reports[0]` of an empty list, and on
  `row["metrics"][0]` of a row without metrics) become `Except.error`.
* `list_to_csv_file` embeds `GoogleAnalyticsUtils.list_to_csv_file` at the
  level of written rows-of-fields; the `fs_ok` flag models whether the
  `open`/write of the destination raises (the exception is caught, so the
  second component is `none` on failure while the filename is returned).
* `get_report_body` embeds the request body built by `get_report`; the
  network is an oracle `api : ReportRequest → RawResponse`.
* `batchLoop` / `get_batch_report` embed the `while end_date >= current_date`
  loop of `get_batch_report`; each iteration records the arguments the code
  passes to the writer (`WriteCall`), and the Bool is `false` when the loop
  aborts because `parse_report` raised.
-/

/-- Python `str.replace("ga:", "")` on the character list: remove every
non-overlapping occurrence of `g`,`a`,`:` scanning left to right. -/
def replaceGa : List Char → List Char
  | [] => []
  | [c] => [c]
  | [c1, c2] => [c1, c2]
  | c1 :: c2 :: c3 :: rest =>
    if c1 = 'g' ∧ c2 = 'a' ∧ c3 = ':' then replaceGa rest
    else c1 :: replaceGa (c2 :: c3 :: rest)

/-- Whether the pattern `"ga:"` occurs anywhere in the character list. -/
def hasGa : List Char → Bool
  | [] => false
  | [_] => false
  | [_, _] => false
  | c1 :: c2 :: c3 :: rest =>
    if c1 = 'g' ∧ c2 = 'a' ∧ c3 = ':' then true
    else hasGa (c2 :: c3 :: rest)

/-- `s.replace("ga:", "")` on strings, as used on each header name
in `parse_report` (lines 124-129 of the source). -/
def stripGa (s : String) : String := String.mk (replaceGa s.data)

/-- The list comprehension stripping every dimension header name. -/
def stripGaList (xs : List String) : List String := xs.map stripGa

/-- One metric header entry of the raw response
(`columnHeader.metricHeader.metricHeaderEntries[i]`); the code only reads
its `name` field. -/
structure MetricHeaderEntry where
  name : String
  deriving DecidableEq

/-- One entry of a data row's `metrics` list; the code reads `values`. -/
structure MetricData where
  values : List String
  deriving DecidableEq

/-- One data row of the raw response (`data.rows[i]`). -/
structure ReportRow where
  dimensions : List String
  metrics : List MetricData
  deriving DecidableEq

/-- One report of the raw response. -/
structure Report where
  dimensionHeaders : List String
  metricHeaders : List MetricHeaderEntry
  rows : List ReportRow
  deriving DecidableEq

/-- The raw API response: `{"reports": [...]}`. -/
structure RawResponse where
  reports : List Report
  deriving DecidableEq

/-- The failure modes of `parse_report`: `reports` empty or missing
(IndexError on line 115), or a data row without a metric entry
(IndexError on line 137). -/
inductive ParseError where
  | noReports : ParseError
  | badRow : ParseError
  deriving DecidableEq

/-- Line 135-139 of the source: one output row is the row's dimension
values, then the values of its first metric set, then the view id. -/
def parseRow (view_id : String) (row : ReportRow) : Except ParseError (List String) :=
  match row.metrics with
  | [] => Except.error ParseError.badRow
  | m :: _ => Except.ok (row.dimensions ++ m.values ++ [view_id])

/-- The `for row in rows` loop of `parse_report`, appending parsed rows in
order and aborting at the first bad row. -/
def parseRows (view_id : String) : List ReportRow → Except ParseError (List (List String))
  | [] => Except.ok []
  | row :: rest =>
    match parseRow view_id row with
    | Except.error e => Except.error e
    | Except.ok r =>
      match parseRows view_id rest with
      | Except.error e => Except.error e
      | Except.ok rs => Except.ok (r :: rs)

/-- The first metric set's values of a row, `[]` if the row has none;
matches `row["metrics"][0]["values"]` when the row has a metric set. -/
def firstValues (row : ReportRow) : List String :=
  match row.metrics with
  | [] => []
  | m :: _ => m.values

/-- `GoogleAnalyticsUtils.parse_report` (source lines 104-142): take the
first report, strip `"ga:"` from the dimension and metric header names,
build the header row `dimensions ++ metrics ++ ["view_id"]`, then one row
per provider data row. -/
def parse_report (resp : RawResponse) (view_id : String) :
    Except ParseError (List (List String)) :=
  match resp.reports with
  | [] => Except.error ParseError.noReports
  | r :: _ =>
    match parseRows view_id r.rows with
    | Except.error e => Except.error e
    | Except.ok rows =>
      Except.ok ((stripGaList r.dimensionHeaders ++
        r.metricHeaders.map (fun m => stripGa m.name) ++ [("view_id")]) :: rows)

/-- A calendar date, with the invariants Python's `datetime.date`
constructor enforces (`MINYEAR = 1`, month in 1..12, day in
1..days-in-month). -/
def isLeap (y : Nat) : Bool :=
  decide (y % 4 = 0 ∧ (y % 100 ≠ 0 ∨ y % 400 = 0))

/-- Number of days of month `m` of year `y` (Gregorian calendar). -/
def daysInMonth (y m : Nat) : Nat :=
  if m = 2 then (if isLeap y then 29 else 28)
  else if m = 4 ∨ m = 6 ∨ m = 9 ∨ m = 11 then 30
  else 31

def daysInMonth_pos (y m : Nat) : 1 ≤ daysInMonth y m := by
  unfold daysInMonth
  split
  · split <;> omega
  · split <;> omega

def daysInMonth_le31 (y m : Nat) : daysInMonth y m ≤ 31 := by
  unfold daysInMonth
  split
  · split <;> omega
  · split <;> omega

structure Date where
  year : Nat
  month : Nat
  day : Nat
  year_pos : 1 ≤ year
  month_pos : 1 ≤ month
  month_le : month ≤ 12
  day_pos : 1 ≤ day
  day_le : day ≤ daysInMonth year month

/-- `d + timedelta(days=1)` on valid calendar dates. -/
def nextDay (d : Date) : Date :=
  if h : d.day < daysInMonth d.year d.month then
    ⟨d.year, d.month, d.day + 1, d.year_pos, d.month_pos, d.month_le, by omega, h⟩
  else if h2 : d.month < 12 then
    ⟨d.year, d.month + 1, 1, d.year_pos, by omega, h2, le_refl 1,
      daysInMonth_pos d.year (d.month + 1)⟩
  else
    ⟨d.year + 1, 1, 1, by omega, le_refl 1, by omega, le_refl 1,
      daysInMonth_pos (d.year + 1) 1⟩

/-- A measure strictly increased by `nextDay`; on valid dates its order
coincides with calendar order (see `dateLE_iff_rank`). -/
def rank (d : Date) : Nat := d.year * 372 + d.month * 31 + d.day

/-- Python `date.__le__`: lexicographic on (year, month, day). The batch
loop guard `end_date >= current_date` is `dateLE current_date end_date`. -/
def dateLE (a b : Date) : Bool :=
  decide (a.year < b.year) ||
    (decide (a.year = b.year) &&
      (decide (a.month < b.month) ||
        (decide (a.month = b.month) && decide (a.day ≤ b.day))))

def dateLE_iff_rank (a b : Date) : dateLE a b = true ↔ rank a ≤ rank b := by
  have h1 := a.month_pos
  have h2 := a.month_le
  have h3 := a.day_pos
  have h4 : a.day ≤ 31 := le_trans a.day_le (daysInMonth_le31 _ _)
  have h5 := b.month_pos
  have h6 := b.month_le
  have h7 := b.day_pos
  have h8 : b.day ≤ 31 := le_trans b.day_le (daysInMonth_le31 _ _)
  simp only [dateLE, rank, Bool.or_eq_true, Bool.and_eq_true, decide_eq_true_eq]
  constructor
  · intro h
    omega
  · intro h
    omega

def rank_lt_nextDay (d : Date) : rank d < rank (nextDay d) := by
  have h1 := d.month_le
  have h2 := d.day_le
  have h3 : daysInMonth d.year d.month ≤ 31 := daysInMonth_le31 _ _
  unfold nextDay
  split
  · simp only [rank]
    omega
  · split
    · simp only [rank]
      omega
    · simp only [rank]
      omega

/-- Python `n` zero-padded to two digits, as `%m`/`%d` produce. -/
def pad2 (n : Nat) : String :=
  if n < 10 then ("0") ++ toString n else toString n

/-- Python `%Y`: the year zero-padded to four digits. -/
def pad4 (n : Nat) : String :=
  if n < 10 then ("000") ++ toString n
  else if n < 100 then ("00") ++ toString n
  else if n < 1000 then ("0") ++ toString n
  else toString n

/-- `strftime("%Y-%m-%d")`, used for the request date range. -/
def fmtISO (d : Date) : String :=
  pad4 d.year ++ ("-") ++ pad2 d.month ++ ("-") ++ pad2 d.day

/-- `strftime("%Y%m%d")`, used in batch output filenames. -/
def fmtYYYYMMDD (d : Date) : String :=
  pad4 d.year ++ pad2 d.month ++ pad2 d.day

structure DateRangeSpec where
  startDate : String
  endDate : String
  deriving DecidableEq

structure DimensionSpec where
  name : String
  deriving DecidableEq

structure MetricSpec where
  expression : String
  deriving DecidableEq

/-- The single entry of `reportRequests` in the body sent by
`get_report` (source lines 86-99), field for field. -/
structure ReportRequest where
  viewId : String
  dateRanges : List DateRangeSpec
  metrics : List MetricSpec
  dimensions : List DimensionSpec
  samplingLevel : String
  pageSize : Nat
  deriving DecidableEq

/-- The request body `get_report` constructs (source lines 79-99): the
date formatted `%Y-%m-%d` as both ends of the single date range, each
caller-supplied dimension string wrapped as `{"name": d}`, each metric
string wrapped as `{"expression": m}`, page size fixed at 100000. -/
def get_report_body (view_id : String) (report_date : Date)
    (dimensions metrics : List String) (sampling : String) : ReportRequest :=
  ⟨view_id,
    [⟨fmtISO report_date, fmtISO report_date⟩],
    metrics.map (fun metric => ⟨metric⟩),
    dimensions.map (fun dimension => ⟨dimension⟩),
    sampling,
    100000⟩

/-- `GoogleAnalyticsUtils.get_report`: build the body, issue the single
network call (the oracle `api`), return the raw response unmodified. -/
def get_report (view_id : String) (report_date : Date)
    (dimensions metrics : List String) (sampling : String)
    (api : ReportRequest → RawResponse) : RawResponse :=
  api (get_report_body view_id report_date dimensions metrics sampling)

/-- The rows `list_to_csv_file` writes (source lines 164-172): with no
extraction date the content verbatim; with one, each row `line` prefixed
with `"Extraction Date"` when `line == content[0]` and with the extraction
date otherwise. -/
def writtenRows (content : List (List String)) (extraction_date : Option String) :
    List (List String) :=
  match extraction_date with
  | none => content
  | some d =>
    match content with
    | [] => []
    | first :: _ =>
      content.map (fun line =>
        if line = first then ("Extraction Date") :: line else d :: line)

/-- `GoogleAnalyticsUtils.list_to_csv_file` (source lines 144-176).
`fs_ok` is whether opening/writing the destination succeeds; on failure
the exception is caught and logged, nothing is (reliably) written, and the
filename is returned all the same.  The pair is (returned value, rows
written to the file if the write succeeded). -/
def list_to_csv_file (fs_ok : Bool) (filename : String) (content : List (List String))
    (delimiter : String) (extraction_date : Option String) :
    String × Option (List (List String)) :=
  if fs_ok then (filename, some (writtenRows content extraction_date))
  else (filename, none)

/-- One invocation of the writer made by the batch loop: the exact
arguments `get_batch_report` passes to `list_to_csv_file` (source lines
217-219 pass only `filename` and `content`, leaving the delimiter at its
default `","` and the extraction date at its default `None`). -/
structure WriteCall where
  filename : String
  content : List (List String)
  delimiter : String
  extraction_date : Option String
  deriving DecidableEq

/-- `./files/{report_name}_{current_date:%Y%m%d}.csv` (source line 218). -/
def batchFilename (report_name : String) (d : Date) : String :=
  ("./files/") ++ report_name ++ ("_") ++ fmtYYYYMMDD d ++ (".csv")

/-- The `while end_date >= current_date` loop of `get_batch_report`
(source lines 202-220): fetch the day's report, parse it, record the
writer invocation, advance one day.  Returns the writer invocations made,
and `false` when the loop aborted because `parse_report` raised. -/
def batchLoop (view_id report_name : String) (dimensions metrics : List String)
    (sampling : String) (api : ReportRequest → RawResponse)
    (end_date current : Date) : List WriteCall × Bool :=
  if h : dateLE current end_date = true then
    match parse_report (get_report view_id current dimensions metrics sampling api) view_id with
    | Except.error _ => ([], false)
    | Except.ok table =>
      (⟨batchFilename report_name current, table, (","), none⟩ ::
          (batchLoop view_id report_name dimensions metrics sampling api end_date (nextDay current)).1,
        (batchLoop view_id report_name dimensions metrics sampling api end_date (nextDay current)).2)
  else ([], true)
termination_by rank end_date + 1 - rank current
decreasing_by
  all_goals
    have h1 := rank_lt_nextDay current
    have h2 := (dateLE_iff_rank current end_date).mp h
    omega

/-- `GoogleAnalyticsUtils.get_batch_report` (source lines 178-220); the
`schema` parameter is accepted, as in the source, and never read. -/
def get_batch_report (view_id : String) (schema : List String) (report_name : String)
    (start_date end_date : Date) (dimensions metrics : List String)
    (sampling : String) (api : ReportRequest → RawResponse) : List WriteCall × Bool :=
  batchLoop view_id report_name dimensions metrics sampling api end_date start_date

/-- The ascending list of days the loop visits, `current` to `end_date`
inclusive. -/
def dateList (end_date current : Date) : List Date :=
  if h : dateLE current end_date = true then
    current :: dateList end_date (nextDay current)
  else []
termination_by rank end_date + 1 - rank current
decreasing_by
  all_goals
    have h1 := rank_lt_nextDay current
    have h2 := (dateLE_iff_rank current end_date).mp h
    omega

/-- Number of leap years in `[1, y)`. -/
def leapsBefore (y : Nat) : Nat :=
  (y - 1) / 4 - (y - 1) / 100 + (y - 1) / 400

/-- Days of year `y` before the first of month `m`. -/
def daysBeforeMonth (y : Nat) : Nat → Nat
  | 0 => 0
  | 1 => 0
  | m + 2 => daysBeforeMonth y (m + 1) + daysInMonth y (m + 1)

/-- The proleptic-Gregorian ordinal of a date (Python `date.toordinal`):
consecutive calendar days have consecutive ordinals. -/
def dayNumber (d : Date) : Nat :=
  365 * (d.year - 1) + leapsBefore d.year + daysBeforeMonth d.year d.month + d.day

/-- Concrete dates and a concrete response, used as witnesses. -/
def exDate1 : Date := ⟨2024, 1, 1, by omega, by omega, by omega, by omega, by decide⟩

def exDate2 : Date := ⟨2024, 1, 2, by omega, by omega, by omega, by omega, by decide⟩

def exDate3 : Date := ⟨2024, 1, 3, by omega, by omega, by omega, by omega, by decide⟩

def exReport : Report :=
  ⟨[("ga:country")], [⟨("ga:sessions")⟩], [⟨[("US")], [⟨[("42")]⟩]⟩]⟩

def exResp : RawResponse := ⟨[exReport]⟩

/-! ## Theorems: the report normalizer -/

theorem parseRows_ok (vid : String) :
    ∀ rows : List ReportRow, (∀ row ∈ rows, row.metrics ≠ []) →
      parseRows vid rows =
        Except.ok (rows.map (fun row => row.dimensions ++ firstValues row ++ [vid])) := by
  intro rows
  induction rows with
  | nil => intro _; rfl
  | cons row rest ih =>
    intro h
    have h1 : row.metrics ≠ [] := h row (List.mem_cons_self row rest)
    have h2 := ih (fun r hr => h r (List.mem_cons_of_mem row hr))
    cases hm : row.metrics with
    | nil => exact absurd hm h1
    | cons m ms =>
      simp only [parseRows, parseRow, hm, h2, List.map_cons]
      simp [firstValues, hm]

theorem parseRows_error_badRow (vid : String) :
    ∀ rows : List ReportRow, ∀ e : ParseError,
      parseRows vid rows = Except.error e → e = ParseError.badRow := by
  intro rows
  induction rows with
  | nil => intro e he; simp [parseRows] at he
  | cons row rest ih =>
    intro e he
    simp only [parseRows, parseRow] at he
    cases hm : row.metrics with
    | nil =>
      rw [hm] at he
      simp at he
      exact he.symm
    | cons m ms =>
      rw [hm] at he
      cases hr : parseRows vid rest with
      | error e2 =>
        rw [hr] at he
        simp at he
        rw [← he]
        exact ih e2 hr
      | ok rs =>
        rw [hr] at he
        simp at he

theorem parse_report_shape (r : Report) (rest : List Report) (vid : String)
    (h : ∀ row ∈ r.rows, row.metrics ≠ []) :
    parse_report ⟨r :: rest⟩ vid = Except.ok
      ((stripGaList r.dimensionHeaders ++
          r.metricHeaders.map (fun m => stripGa m.name) ++ [("view_id")]) ::
        r.rows.map (fun row => row.dimensions ++ firstValues row ++ [vid])) := by
  simp only [parse_report, parseRows_ok vid r.rows h]

/-- C1: for every raw response containing at least one report,
`parse_report` returns the table whose first row is the stripped dimension
header names, then the stripped metric header names, then `"view_id"`,
and whose subsequent rows are, per provider data row in provider order,
the row's dimension values, the values of its first metric set, and the
view id; zero data rows yield exactly the header row. -/
theorem c1_parse_report_table (r : Report) (rest : List Report) (vid : String)
    (h : ∀ row ∈ r.rows, row.metrics ≠ []) :
    parse_report ⟨r :: rest⟩ vid = Except.ok
      ((stripGaList r.dimensionHeaders ++
          r.metricHeaders.map (fun m => stripGa m.name) ++ [("view_id")]) ::
        r.rows.map (fun row => row.dimensions ++ firstValues row ++ [vid])) ∧
    (r.rows = [] → parse_report ⟨r :: rest⟩ vid = Except.ok
      [stripGaList r.dimensionHeaders ++
        r.metricHeaders.map (fun m => stripGa m.name) ++ [("view_id")]]) := by
  refine ⟨parse_report_shape r rest vid h, fun hr => ?_⟩
  rw [parse_report_shape r rest vid h, hr]
  simp

/-- Witness for C1, the example of the claim: dimensions `["country"]`,
metrics `["sessions"]`, one data row `("US", "42")`. -/
theorem c1_witness :
    parse_report exResp ("12345") = Except.ok
      [[("country"), ("sessions"), ("view_id")], [("US"), ("42"), ("12345")]] :=
  ((c1_parse_report_table exReport [] ("12345") (by decide)).1).trans (by rfl)

/-- C2: for every valid single-day response (each data row carrying one
value per dimension and one metric value per metric), the parsed table's
header length is dimension-count + metric-count + 1 and every row's length
equals the header's. -/
theorem c2_table_rectangular (r : Report) (rest : List Report) (vid : String)
    (h : ∀ row ∈ r.rows, row.dimensions.length = r.dimensionHeaders.length ∧
      (firstValues row).length = r.metricHeaders.length ∧ row.metrics ≠ []) :
    ∀ table : List (List String), parse_report ⟨r :: rest⟩ vid = Except.ok table →
      (table.head?).map List.length =
        some (r.dimensionHeaders.length + r.metricHeaders.length + 1) ∧
      ∀ row ∈ table, row.length =
        r.dimensionHeaders.length + r.metricHeaders.length + 1 := by
  intro table htab
  rw [parse_report_shape r rest vid (fun row hr => (h row hr).2.2)] at htab
  injection htab with htab
  subst htab
  constructor
  · simp [stripGaList]
    omega
  · intro row hrow
    rcases List.mem_cons.mp hrow with hhead | hdata
    · subst hhead
      simp [stripGaList]
      omega
    · obtain ⟨src, hsrc, hmap⟩ := List.mem_map.mp hdata
      subst hmap
      have := h src hsrc
      simp [this.1, this.2.1]
      omega

/-- Witness for C2 at the concrete example response. -/
theorem c2_witness :
    (([[("country"), ("sessions"), ("view_id")],
        [("US"), ("42"), ("12345")]] : List (List String)).head?).map List.length =
      some 3 :=
  (c2_table_rectangular exReport [] ("12345") (by decide) _ (by rfl)).1

/-- C8: a response whose `reports` list is empty (or missing) makes
`parse_report` fail with the no-reports error; a response with at least
one report never fails with that error. -/
theorem c8_empty_reports_error (resp : RawResponse) (vid : String) :
    (resp.reports = [] → parse_report resp vid = Except.error ParseError.noReports) ∧
    (resp.reports ≠ [] → parse_report resp vid ≠ Except.error ParseError.noReports) := by
  obtain ⟨reports⟩ := resp
  constructor
  · intro h
    simp only at h
    subst h
    rfl
  · intro h
    simp only at h
    cases reports with
    | nil => exact absurd rfl h
    | cons r rs =>
      simp only [parse_report]
      cases hpr : parseRows vid r.rows with
      | error e =>
        have he := parseRows_error_badRow vid r.rows e hpr
        subst he
        simp
      | ok t => simp

/-- Witness for C8: the empty response fails with the no-reports error,
the concrete one-report response does not. -/
theorem c8_witness :
    parse_report ⟨[]⟩ ("v") = Except.error ParseError.noReports ∧
    parse_report exResp ("v") ≠ Except.error ParseError.noReports :=
  ⟨(c8_empty_reports_error ⟨[]⟩ ("v")).1 rfl,
    (c8_empty_reports_error exResp ("v")).2 (by decide)⟩

/-! ## Theorems: header stripping -/

theorem replaceGa_of_hasGa_false (cs : List Char) (h : hasGa cs = false) :
    replaceGa cs = cs := by
  induction cs using replaceGa.induct with
  | case1 => rfl
  | case2 c => rfl
  | case3 c1 c2 => rfl
  | case4 c1 c2 c3 rest hc ih =>
    rw [hasGa, if_pos hc] at h
    exact absurd h (by simp)
  | case5 c1 c2 c3 rest hc ih =>
    rw [hasGa, if_neg hc] at h
    rw [replaceGa, if_neg hc, ih h]

/-- C7 counterexample: the stripping the code performs removes every
occurrence of `"ga:"`, and removal can create a new occurrence, so a
second strip can change the result again (`"gga:a:"` strips to `"ga:"`,
which strips to `""`). -/
theorem c7_counterexample :
    stripGaList (stripGaList [("gga:a:")]) ≠ stripGaList [("gga:a:")] := by
  decide

/-- C7 (amended): the stripping is order- and length-preserving (each name
is mapped independently, in place), and is a no-op on every name in which
`"ga:"` does not occur at all; it is not idempotent in general. -/
theorem c7_strip_props :
    (∀ xs : List String, (stripGaList xs).length = xs.length ∧
      ∀ i : Nat, (stripGaList xs)[i]? = Option.map stripGa xs[i]?) ∧
    ∀ s : String, hasGa s.data = false → stripGa s = s := by
  constructor
  · intro xs
    constructor
    · simp [stripGaList]
    · intro i
      simp [stripGaList]
  · intro s h
    cases s with
    | mk data =>
      show String.mk (replaceGa data) = String.mk data
      rw [replaceGa_of_hasGa_false data h]

/-- Witness for C7 (amended), at concrete names. -/
theorem c7_witness :
    stripGa ("country") = ("country") ∧
    (stripGaList [("ga:country")])[0]? = some (stripGa ("ga:country")) := by
  constructor
  · exact c7_strip_props.2 ("country") (by decide)
  · have h := (c7_strip_props.1 [("ga:country")]).2 0
    simpa using h

/-! ## Theorems: the report client request body -/

/-- C3 counterexample: for the caller-supplied bare identifier
`"country"`, the request body contains the dimension name `"country"`
verbatim; no `"ga:"` namespace prefix has been added. -/
theorem c3_counterexample :
    (get_report_body ("v") exDate1 [("country")] [("sessions")] ("LARGE")).dimensions =
      [⟨("country")⟩] ∧
    (("country") : String) ≠ ("ga:") ++ ("country") := by
  exact ⟨rfl, by decide⟩

/-- C3 (amended): the single request body contains the single-day range
`[date, date]` (formatted `%Y-%m-%d`), the fixed page size 100000, the
view id and sampling level as supplied, and each caller-supplied
dimension/metric string wrapped verbatim as `{"name": s}` /
`{"expression": s}` — no namespace prefix is added by the client. -/
theorem c3_request_body (vid : String) (d : Date) (dims mets : List String)
    (samp : String) :
    (get_report_body vid d dims mets samp).dateRanges = [⟨fmtISO d, fmtISO d⟩] ∧
    (get_report_body vid d dims mets samp).pageSize = 100000 ∧
    (get_report_body vid d dims mets samp).dimensions.map DimensionSpec.name = dims ∧
    (get_report_body vid d dims mets samp).metrics.map MetricSpec.expression = mets ∧
    (get_report_body vid d dims mets samp).viewId = vid ∧
    (get_report_body vid d dims mets samp).samplingLevel = samp := by
  refine ⟨rfl, rfl, ?_, ?_, rfl, rfl⟩
  · show List.map DimensionSpec.name
        (List.map (fun dimension => (⟨dimension⟩ : DimensionSpec)) dims) = dims
    rw [List.map_map]
    exact (List.map_congr_left (fun x _ => rfl)).trans (List.map_id dims)
  · show List.map MetricSpec.expression
        (List.map (fun metric => (⟨metric⟩ : MetricSpec)) mets) = mets
    rw [List.map_map]
    exact (List.map_congr_left (fun x _ => rfl)).trans (List.map_id mets)

/-! ## Theorems: the table writer -/

/-- C4 counterexample: with an extraction date set, a data row that is
equal (as a list of fields) to the header row is prefixed with
`"Extraction Date"`, not with the supplied date — the code compares each
row by value to `content[0]`, not by position. -/
theorem c4_counterexample :
    (list_to_csv_file true ("out.csv") [[("x")], [("x")]] (",")
        (some ("2024-05-01"))).2 =
      some [[("Extraction Date"), ("x")], [("Extraction Date"), ("x")]] ∧
    (("2024-05-01") : String) ≠ ("Extraction Date") := by
  exact ⟨rfl, by decide⟩

/-- C4 (amended): with an extraction date set, every written row has
exactly one more field than the corresponding input row; the extra leading
field is `"Extraction Date"` for the header row and for any data row equal
to the header row, and the supplied extraction date for every other data
row. -/
theorem c4_extraction_prefix (filename : String) (first : List String)
    (rest : List (List String)) (delimiter ed : String) :
    (list_to_csv_file true filename (first :: rest) delimiter (some ed)).2 =
      some ((("Extraction Date") :: first) ::
        rest.map (fun line =>
          (if line = first then ("Extraction Date") else ed) :: line)) ∧
    ∀ i : Nat, Option.map List.length (writtenRows (first :: rest) (some ed))[i]? =
      Option.map (fun row => row.length + 1) (first :: rest)[i]? := by
  constructor
  · show some (writtenRows (first :: rest) (some ed)) = some _
    rw [Option.some_inj]
    show (first :: rest).map (fun line =>
        if line = first then ("Extraction Date") :: line else ed :: line) = _
    rw [List.map_cons, if_pos rfl]
    exact congrArg (List.cons _) (List.map_congr_left
      (fun line hline => by by_cases hl : line = first <;> simp [hl]))
  · intro i
    simp only [writtenRows, List.getElem?_map]
    cases hx : (first :: rest)[i]? with
    | none => rfl
    | some row =>
      by_cases hl : row = first <;> simp [hl]

/-- C6: the writer returns the supplied filename on both execution paths —
when the write succeeds, and when opening/writing fails, in which case the
exception is caught and nothing is written, so the caller cannot tell the
two apart from the return value. -/
theorem c6_returns_filename (fs_ok : Bool) (filename : String)
    (content : List (List String)) (delimiter : String)
    (extraction_date : Option String) :
    (list_to_csv_file fs_ok filename content delimiter extraction_date).1 = filename ∧
    (list_to_csv_file false filename content delimiter extraction_date).2 = none := by
  cases fs_ok <;> exact ⟨rfl, rfl⟩

/-! ## Theorems: calendar arithmetic -/

theorem daysBeforeMonth_step (y m : Nat) (h : 1 ≤ m) :
    daysBeforeMonth y (m + 1) = daysBeforeMonth y m + daysInMonth y m := by
  match m, h with
  | Nat.succ k, _ => rfl

theorem daysInMonth_not_special (y m : Nat) (h2 : m ≠ 2)
    (h4 : m ≠ 4) (h6 : m ≠ 6) (h9 : m ≠ 9) (h11 : m ≠ 11) :
    daysInMonth y m = 31 := by
  unfold daysInMonth
  rw [if_neg h2, if_neg (by simp [h4, h6, h9, h11])]

theorem daysBeforeMonth_twelve (y : Nat) :
    daysBeforeMonth y 12 = 334 + (if isLeap y then 1 else 0) := by
  have e12 : daysBeforeMonth y 12 = daysBeforeMonth y 11 + daysInMonth y 11 :=
    daysBeforeMonth_step y 11 (by omega)
  have e11 : daysBeforeMonth y 11 = daysBeforeMonth y 10 + daysInMonth y 10 :=
    daysBeforeMonth_step y 10 (by omega)
  have e10 : daysBeforeMonth y 10 = daysBeforeMonth y 9 + daysInMonth y 9 :=
    daysBeforeMonth_step y 9 (by omega)
  have e9 : daysBeforeMonth y 9 = daysBeforeMonth y 8 + daysInMonth y 8 :=
    daysBeforeMonth_step y 8 (by omega)
  have e8 : daysBeforeMonth y 8 = daysBeforeMonth y 7 + daysInMonth y 7 :=
    daysBeforeMonth_step y 7 (by omega)
  have e7 : daysBeforeMonth y 7 = daysBeforeMonth y 6 + daysInMonth y 6 :=
    daysBeforeMonth_step y 6 (by omega)
  have e6 : daysBeforeMonth y 6 = daysBeforeMonth y 5 + daysInMonth y 5 :=
    daysBeforeMonth_step y 5 (by omega)
  have e5 : daysBeforeMonth y 5 = daysBeforeMonth y 4 + daysInMonth y 4 :=
    daysBeforeMonth_step y 4 (by omega)
  have e4 : daysBeforeMonth y 4 = daysBeforeMonth y 3 + daysInMonth y 3 :=
    daysBeforeMonth_step y 3 (by omega)
  have e3 : daysBeforeMonth y 3 = daysBeforeMonth y 2 + daysInMonth y 2 :=
    daysBeforeMonth_step y 2 (by omega)
  have e2 : daysBeforeMonth y 2 = daysBeforeMonth y 1 + daysInMonth y 1 :=
    daysBeforeMonth_step y 1 (by omega)
  have e1 : daysBeforeMonth y 1 = 0 := rfl
  have d1 : daysInMonth y 1 = 31 := daysInMonth_not_special y 1 (by omega) (by omega) (by omega) (by omega) (by omega)
  have d3 : daysInMonth y 3 = 31 := daysInMonth_not_special y 3 (by omega) (by omega) (by omega) (by omega) (by omega)
  have d5 : daysInMonth y 5 = 31 := daysInMonth_not_special y 5 (by omega) (by omega) (by omega) (by omega) (by omega)
  have d7 : daysInMonth y 7 = 31 := daysInMonth_not_special y 7 (by omega) (by omega) (by omega) (by omega) (by omega)
  have d8 : daysInMonth y 8 = 31 := daysInMonth_not_special y 8 (by omega) (by omega) (by omega) (by omega) (by omega)
  have d10 : daysInMonth y 10 = 31 := daysInMonth_not_special y 10 (by omega) (by omega) (by omega) (by omega) (by omega)
  have d4 : daysInMonth y 4 = 30 := by unfold daysInMonth; simp
  have d6 : daysInMonth y 6 = 30 := by unfold daysInMonth; simp
  have d9 : daysInMonth y 9 = 30 := by unfold daysInMonth; simp
  have d11 : daysInMonth y 11 = 30 := by unfold daysInMonth; simp
  have d2 : daysInMonth y 2 = if isLeap y then 29 else 28 := by unfold daysInMonth; simp
  rw [e12, e11, e10, e9, e8, e7, e6, e5, e4, e3, e2, e1,
    d1, d2, d3, d4, d5, d6, d7, d8, d9, d10, d11]
  cases isLeap y <;> simp

theorem leapsBefore_succ (y : Nat) (hy : 1 ≤ y) :
    leapsBefore (y + 1) = leapsBefore y + (if isLeap y then 1 else 0) := by
  unfold leapsBefore isLeap
  by_cases h4 : y % 4 = 0 <;> by_cases h100 : y % 100 = 0 <;> by_cases h400 : y % 400 = 0 <;>
    simp [h4, h100, h400] <;> omega

theorem dayNumber_nextDay (d : Date) : dayNumber (nextDay d) = dayNumber d + 1 := by
  have hdle := d.day_le
  have hmp := d.month_pos
  have hml := d.month_le
  have hyp := d.year_pos
  unfold nextDay
  split
  · simp only [dayNumber]
    omega
  · rename_i hd
    split
    · rename_i hm
      have hstep := daysBeforeMonth_step d.year d.month hmp
      simp only [dayNumber]
      omega
    · rename_i hm
      have h12 : d.month = 12 := by omega
      have hdim12 : daysInMonth d.year 12 = 31 :=
        daysInMonth_not_special d.year 12 (by omega) (by omega) (by omega) (by omega) (by omega)
      rw [h12] at hd hdle
      rw [hdim12] at hd hdle
      have hday : d.day = 31 := by omega
      have h334 := daysBeforeMonth_twelve d.year
      have hls := leapsBefore_succ d.year hyp
      simp only [dayNumber, h12, hday]
      have hdbm1 : daysBeforeMonth (d.year + 1) 1 = 0 := rfl
      rw [hdbm1, hls, h334]
      cases isLeap d.year <;> simp <;> omega

theorem rank_le_of_lt_nextDay (c e : Date) (h : rank e < rank (nextDay c)) :
    rank e ≤ rank c := by
  by_contra hcon
  push_neg at hcon
  have hcmp := c.month_pos
  have hcml := c.month_le
  have hcdp := c.day_pos
  have hcdl := c.day_le
  have hcd31 : daysInMonth c.year c.month ≤ 31 := daysInMonth_le31 _ _
  have hemp := e.month_pos
  have heml := e.month_le
  have hedp := e.day_pos
  have hedl := e.day_le
  have hed31 : daysInMonth e.year e.month ≤ 31 := daysInMonth_le31 _ _
  unfold nextDay at h
  split at h
  · simp only [rank] at h hcon
    omega
  · rename_i hd
    split at h
    · rename_i hm
      simp only [rank] at h hcon
      have hy : e.year = c.year := by omega
      have hm2 : e.month = c.month := by omega
      rw [hy, hm2] at hedl
      omega
    · rename_i hm
      have h12 : c.month = 12 := by omega
      have hdim12 : daysInMonth c.year 12 = 31 :=
        daysInMonth_not_special c.year 12 (by omega) (by omega) (by omega) (by omega) (by omega)
      rw [h12] at hd hcdl
      rw [hdim12] at hd hcdl
      simp only [rank] at h hcon
      omega

theorem rank_inj (a b : Date) (h : rank a = rank b) : a = b := by
  have h1 := a.month_pos
  have h2 := a.month_le
  have h3 := a.day_pos
  have h4 : a.day ≤ 31 := le_trans a.day_le (daysInMonth_le31 _ _)
  have h5 := b.month_pos
  have h6 := b.month_le
  have h7 := b.day_pos
  have h8 : b.day ≤ 31 := le_trans b.day_le (daysInMonth_le31 _ _)
  simp only [rank] at h
  have hy : a.year = b.year := by omega
  have hm : a.month = b.month := by omega
  have hd : a.day = b.day := by omega
  cases a with
  | mk ay am ad ap1 ap2 ap3 ap4 ap5 =>
    cases b with
    | mk by2 bm bd bp1 bp2 bp3 bp4 bp5 =>
      simp only at hy hm hd
      subst hy
      subst hm
      subst hd
      rfl

/-! ## Theorems: the batch day loop -/

theorem dateList_cons (e c : Date) (h : dateLE c e = true) :
    dateList e c = c :: dateList e (nextDay c) := by
  rw [dateList.eq_def, dif_pos h]

theorem dateList_nil (e c : Date) (h : dateLE c e = false) :
    dateList e c = [] := by
  rw [dateList.eq_def, dif_neg (by simp [h])]

theorem batchLoop_cons (vid name : String) (dims mets : List String) (samp : String)
    (api : ReportRequest → RawResponse) (e c : Date) (t : List (List String))
    (h : dateLE c e = true)
    (hp : parse_report (get_report vid c dims mets samp api) vid = Except.ok t) :
    batchLoop vid name dims mets samp api e c =
      (⟨batchFilename name c, t, (","), none⟩ ::
          (batchLoop vid name dims mets samp api e (nextDay c)).1,
        (batchLoop vid name dims mets samp api e (nextDay c)).2) := by
  rw [batchLoop.eq_def, dif_pos h, hp]

theorem batchLoop_err (vid name : String) (dims mets : List String) (samp : String)
    (api : ReportRequest → RawResponse) (e c : Date) (err : ParseError)
    (h : dateLE c e = true)
    (hp : parse_report (get_report vid c dims mets samp api) vid = Except.error err) :
    batchLoop vid name dims mets samp api e c = ([], false) := by
  rw [batchLoop.eq_def, dif_pos h, hp]

theorem batchLoop_stop (vid name : String) (dims mets : List String) (samp : String)
    (api : ReportRequest → RawResponse) (e c : Date)
    (h : dateLE c e = false) :
    batchLoop vid name dims mets samp api e c = ([], true) := by
  rw [batchLoop.eq_def, dif_neg (by simp [h])]

theorem dateList_spec (e : Date) :
    ∀ (n : Nat) (c : Date), rank e + 1 - rank c = n → dateLE c e = true →
      (dateList e c).head? = some c ∧
      (dateList e c).getLast? = some e ∧
      (dateList e c).length = dayNumber e + 1 - dayNumber c ∧
      dayNumber c ≤ dayNumber e ∧
      List.Chain' (fun a b => b = nextDay a) (dateList e c) ∧
      (∀ x ∈ dateList e c, dayNumber c ≤ dayNumber x) := by
  intro n
  induction n using Nat.strong_induction_on with
  | _ n ih =>
    intro c hn hc
    rw [dateList_cons e c hc]
    have hdn : dayNumber (nextDay c) = dayNumber c + 1 := dayNumber_nextDay c
    cases hnext : dateLE (nextDay c) e with
    | true =>
      have hlt : rank c < rank (nextDay c) := rank_lt_nextDay c
      have hre : rank (nextDay c) ≤ rank e := (dateLE_iff_rank _ _).mp hnext
      obtain ⟨ih1, ih2, ih3, ih4, ih5, ih6⟩ :=
        ih (rank e + 1 - rank (nextDay c)) (by omega) (nextDay c) rfl hnext
      refine ⟨rfl, ?_, ?_, by omega, ?_, ?_⟩
      · cases hl : dateList e (nextDay c) with
        | nil => rw [hl] at ih1; simp at ih1
        | cons a l =>
          rw [hl] at ih2
          rw [List.getLast?_cons_cons, ih2]
      · rw [List.length_cons, ih3]
        omega
      · rw [List.chain'_cons']
        refine ⟨?_, ih5⟩
        intro y hy
        rw [ih1] at hy
        simp at hy
        exact hy.symm
      · intro x hx
        rcases List.mem_cons.mp hx with hx1 | hx2
        · subst hx1; exact le_refl _
        · have := ih6 x hx2
          omega
    | false =>
      have h1 : rank c ≤ rank e := (dateLE_iff_rank _ _).mp hc
      have h2 : ¬ rank (nextDay c) ≤ rank e := by
        intro hcontra
        rw [(dateLE_iff_rank (nextDay c) e).mpr hcontra] at hnext
        exact absurd hnext (by decide)
      have h3 : rank e ≤ rank c := rank_le_of_lt_nextDay c e (by omega)
      have h4 : e = c := rank_inj e c (by omega)
      rw [dateList_nil e (nextDay c) hnext]
      subst h4
      exact ⟨rfl, rfl, by simp [dayNumber], le_refl _, by simp, by simp⟩

theorem batchLoop_ok (vid name : String) (dims mets : List String) (samp : String)
    (api : ReportRequest → RawResponse) (e : Date) :
    ∀ (n : Nat) (c : Date), rank e + 1 - rank c = n →
      (∀ d ∈ dateList e c, ∃ t,
        parse_report (get_report vid d dims mets samp api) vid = Except.ok t) →
      batchLoop vid name dims mets samp api e c =
        ((dateList e c).map (fun d =>
          ⟨batchFilename name d,
            (parse_report (get_report vid d dims mets samp api) vid).toOption.getD [],
            (","), none⟩), true) := by
  intro n
  induction n using Nat.strong_induction_on with
  | _ n ih =>
    intro c hn hok
    cases hc : dateLE c e with
    | true =>
      obtain ⟨t, ht⟩ := hok c (by rw [dateList_cons e c hc]; exact List.mem_cons_self c _)
      rw [batchLoop_cons vid name dims mets samp api e c t hc ht, dateList_cons e c hc]
      have hlt : rank c < rank (nextDay c) := rank_lt_nextDay c
      have hre : rank c ≤ rank e := (dateLE_iff_rank _ _).mp hc
      have ihr := ih (rank e + 1 - rank (nextDay c)) (by omega) (nextDay c) rfl
        (fun d hd => hok d (by rw [dateList_cons e c hc]; exact List.mem_cons_of_mem c hd))
      rw [ihr]
      simp [ht]
      rfl
    | false =>
      rw [batchLoop_stop vid name dims mets samp api e c hc, dateList_nil e c hc]
      rfl

theorem batchLoop_write_defaults (vid name : String) (dims mets : List String)
    (samp : String) (api : ReportRequest → RawResponse) (e : Date) :
    ∀ (n : Nat) (c : Date), rank e + 1 - rank c = n →
      ∀ wc ∈ (batchLoop vid name dims mets samp api e c).1,
        wc.delimiter = (",") ∧ wc.extraction_date = none := by
  intro n
  induction n using Nat.strong_induction_on with
  | _ n ih =>
    intro c hn wc hwc
    cases hc : dateLE c e with
    | true =>
      cases hp : parse_report (get_report vid c dims mets samp api) vid with
      | error err =>
        rw [batchLoop_err vid name dims mets samp api e c err hc hp] at hwc
        simp at hwc
      | ok t =>
        rw [batchLoop_cons vid name dims mets samp api e c t hc hp] at hwc
        have hlt : rank c < rank (nextDay c) := rank_lt_nextDay c
        have hre : rank c ≤ rank e := (dateLE_iff_rank _ _).mp hc
        rcases List.mem_cons.mp hwc with hw1 | hw2
        · subst hw1; exact ⟨rfl, rfl⟩
        · exact ih (rank e + 1 - rank (nextDay c)) (by omega) (nextDay c) rfl wc hw2
    | false =>
      rw [batchLoop_stop vid name dims mets samp api e c hc] at hwc
      simp at hwc

/-- C5: for every inclusive range with start <= end and responses that all
parse, `get_batch_report` performs one iteration per calendar day in
ascending order — the visited days start at the start date, end at the end
date, number exactly (end - start + 1) (as day ordinals), are consecutive
(each the successor day of the previous: no gaps, no duplicates) — and
writes for each visited day exactly one file named
`./files/{reportName}_{YYYYMMDD}.csv`. -/
theorem c5_batch_one_file_per_day (vid : String) (schema : List String) (name : String)
    (sd ed : Date) (dims mets : List String) (samp : String)
    (api : ReportRequest → RawResponse)
    (hle : dateLE sd ed = true)
    (hok : ∀ d ∈ dateList ed sd, ∃ t,
      parse_report (get_report vid d dims mets samp api) vid = Except.ok t) :
    (get_batch_report vid schema name sd ed dims mets samp api).2 = true ∧
    (get_batch_report vid schema name sd ed dims mets samp api).1.map
        WriteCall.filename = (dateList ed sd).map (batchFilename name) ∧
    (dateList ed sd).length = dayNumber ed + 1 - dayNumber sd ∧
    (dateList ed sd).head? = some sd ∧
    (dateList ed sd).getLast? = some ed ∧
    List.Chain' (fun a b => b = nextDay a) (dateList ed sd) ∧
    List.Pairwise (fun a b => dayNumber a < dayNumber b) (dateList ed sd) := by
  obtain ⟨h1, h2, h3, h4, h5, h6⟩ := dateList_spec ed (rank ed + 1 - rank sd) sd rfl hle
  have hbl := batchLoop_ok vid name dims mets samp api ed (rank ed + 1 - rank sd) sd rfl hok
  have hget : get_batch_report vid schema name sd ed dims mets samp api =
      batchLoop vid name dims mets samp api ed sd := rfl
  refine ⟨?_, ?_, h3, h1, h2, h5, ?_⟩
  · rw [hget, hbl]
  · rw [hget, hbl]
    show List.map WriteCall.filename (List.map _ (dateList ed sd)) = _
    rw [List.map_map]
    exact List.map_congr_left (fun d _ => rfl)
  · have hchain : List.Chain' (fun a b => dayNumber a < dayNumber b) (dateList ed sd) :=
      List.Chain'.imp (fun a b hab => by rw [hab, dayNumber_nextDay a]; omega) h5
    haveI : IsTrans Date (fun a b => dayNumber a < dayNumber b) :=
      ⟨fun a b c hab hbc => Nat.lt_trans hab hbc⟩
    exact List.chain'_iff_pairwise.mp hchain

/-- Witness for C5, the example of the claim: the range 2024-01-01 to
2024-01-03 produces exactly the three files, in date order. -/
theorem c5_witness :
    (get_batch_report ("v") ([]) ("report") exDate1 exDate3 [("ga:country")]
        [("ga:sessions")] ("LARGE") (fun _ => exResp)).1.map WriteCall.filename =
      [("./files/report_20240101.csv"), ("./files/report_20240102.csv"),
        ("./files/report_20240103.csv")] := by
  have hd1 : dateLE exDate1 exDate3 = true := by decide
  have hd2 : dateLE (nextDay exDate1) exDate3 = true := by decide
  have hd3 : dateLE (nextDay (nextDay exDate1)) exDate3 = true := by decide
  have hd4 : dateLE (nextDay (nextDay (nextDay exDate1))) exDate3 = false := by decide
  have hdl : dateList exDate3 exDate1 =
      [exDate1, nextDay exDate1, nextDay (nextDay exDate1)] := by
    rw [dateList_cons _ _ hd1, dateList_cons _ _ hd2, dateList_cons _ _ hd3,
      dateList_nil _ _ hd4]
  have h := c5_batch_one_file_per_day ("v") ([]) ("report") exDate1 exDate3
    [("ga:country")] [("ga:sessions")] ("LARGE") (fun _ => exResp) hd1
    (fun d _ => ⟨_, rfl⟩)
  rw [h.2.1, hdl]
  decide

/-- C9: the `schema` parameter of `get_batch_report` is never consulted —
with any two schema values and otherwise identical inputs and identical
API responses, the batch performs the same fetch/parse sequence and
records the same writer invocations with the same contents. -/
theorem c9_schema_irrelevant (vid : String) (schema1 schema2 : List String)
    (name : String) (sd ed : Date) (dims mets : List String) (samp : String)
    (api : ReportRequest → RawResponse) :
    get_batch_report vid schema1 name sd ed dims mets samp api =
      get_batch_report vid schema2 name sd ed dims mets samp api := rfl

/-- C10: every writer invocation made by `get_batch_report` uses the
default `","` delimiter and no extraction date, so the written rows are
the parsed table verbatim — no "Extraction Date" column is added. -/
theorem c10_writer_defaults (vid : String) (schema : List String) (name : String)
    (sd ed : Date) (dims mets : List String) (samp : String)
    (api : ReportRequest → RawResponse) :
    ∀ wc ∈ (get_batch_report vid schema name sd ed dims mets samp api).1,
      wc.delimiter = (",") ∧ wc.extraction_date = none ∧
      writtenRows wc.content wc.extraction_date = wc.content := by
  intro wc hwc
  have h := batchLoop_write_defaults vid name dims mets samp api ed
    (rank ed + 1 - rank sd) sd rfl wc hwc
  refine ⟨h.1, h.2, ?_⟩
  rw [h.2]
  rfl

/-- Witness for C10: the single write of a one-day batch uses the `","`
delimiter and no extraction date. -/
theorem c10_witness :
    (⟨batchFilename ("r") exDate1,
        [[("country"), ("sessions"), ("view_id")], [("US"), ("42"), ("v")]],
        (","), none⟩ : WriteCall).delimiter = (",") ∧
    (⟨batchFilename ("r") exDate1,
        [[("country"), ("sessions"), ("view_id")], [("US"), ("42"), ("v")]],
        (","), none⟩ : WriteCall).extraction_date = none := by
  have hb : get_batch_report ("v") ([]) ("r") exDate1 exDate1 [("ga:country")]
      [("ga:sessions")] ("LARGE") (fun _ => exResp) =
      ([⟨batchFilename ("r") exDate1,
          [[("country"), ("sessions"), ("view_id")], [("US"), ("42"), ("v")]],
          (","), none⟩], true) := by
    show batchLoop ("v") ("r") [("ga:country")] [("ga:sessions")] ("LARGE")
        (fun _ => exResp) exDate1 exDate1 = _
    rw [batchLoop_cons ("v") ("r") [("ga:country")] [("ga:sessions")] ("LARGE")
        (fun _ => exResp) exDate1 exDate1
        ([[("country"), ("sessions"), ("view_id")], [("US"), ("42"), ("v")]])
        (by decide) rfl,
      batchLoop_stop ("v") ("r") [("ga:country")] [("ga:sessions")] ("LARGE")
        (fun _ => exResp) exDate1 (nextDay exDate1) (by decide)]
  have hmem : (⟨batchFilename ("r") exDate1,
      [[("country"), ("sessions"), ("view_id")], [("US"), ("42"), ("v")]],
      (","), none⟩ : WriteCall) ∈
      (get_batch_report ("v") ([]) ("r") exDate1 exDate1 [("ga:country")]
        [("ga:sessions")] ("LARGE") (fun _ => exResp)).1 := by
    rw [hb]
    exact List.mem_cons_self _ _
  have h := c10_writer_defaults ("v") ([]) ("r") exDate1 exDate1 [("ga:country")]
    [("ga:sessions")] ("LARGE") (fun _ => exResp) _ hmem
  exact ⟨h.1, h.2.1⟩
